import Mathlib

/-
Verification of the LingConvert external-process orchestration core.

The Go sources are shallowly embedded:
* the progress decoder (FFmpegProgress, applyKV, parseProgressLine — progress.go)
  as pure functions over strings and an explicit snapshot record;
* the stream-scanning loop (scanProgress — run.go) as a fold over the list of
  lines read from the subprocess's stdout, with the progress sink modelled as a
  pure predicate (its non-nil error return becomes `true` = abort requested);
* the outcome mapping of RunWithProgress (run.go, lines 96-112) as a pure
  function of the wait result, the run-scoped context's error state, and the
  captured stderr buffer;
* the readiness check (ensureReady — tool.go / media.go) as an environment-
  parametrised state transformer, plus a two-thread interleaving model of its
  mutex-delimited atomic sections;
* the argument builder (FFmpegCommand — command.go) at two levels: the list of
  argument tokens, and a small slice/heap model capturing Go's slice aliasing
  so that the snapshot semantics of Args() is a real statement.

Machine integers are modelled as Int with explicit int64 range checks where
the Go standard library enforces them.
-/

namespace LingConvert

/-! ## Go standard-library models -/

/-- Models the whitespace class of Go's `unicode.IsSpace` on the code points
that can realistically occur here (ASCII whitespace plus NEL and NBSP); the
remaining Unicode space runes are omitted, which none of the claims touch. -/
def isGoSpace (c : Char) : Bool :=
  c = ' ' || c = '\t' || c = '\n' || c = '\x0b' || c = '\x0c' || c = '\r' ||
  c = '\x85' || c = '\xa0'

/-- Models `strings.TrimSpace`: drop leading and trailing whitespace.
This is also the body of the repository's own `trimSpace` helper
(run.go lines 137-141), which — despite the comment there suggesting a
truncation policy — performs no truncation. -/
def trimSpace (s : String) : String :=
  String.mk (((s.toList.dropWhile isGoSpace).reverse.dropWhile isGoSpace).reverse)

/-- Digit-run parser shared by the integer parsers: all characters must be
decimal digits and there must be at least one. -/
def parseDigits (cs : List Char) : Option Nat :=
  if cs ≠ [] ∧ cs.all (·.isDigit) then
    some (cs.foldl (fun n c => 10 * n + (c.toNat - '0'.toNat)) 0)
  else
    none

/-- Models `strconv.ParseInt(s, 10, 64)` — and `strconv.Atoi` on a 64-bit
platform, where `int` is 64 bits wide: optional sign, then decimal digits,
with the result required to fit in int64. -/
def goParseInt (s : String) : Option Int :=
  match s.toList with
  | [] => none
  | c :: rest =>
    let signed : Int × List Char :=
      if c = '+' then (1, rest) else if c = '-' then (-1, rest) else (1, c :: rest)
    match parseDigits signed.2 with
    | none => none
    | some n =>
      let v : Int := signed.1 * (n : Int)
      if -(2 ^ 63) ≤ v ∧ v < 2 ^ 63 then some v else none

/-- Models `strconv.Atoi` (frame field); on the 64-bit platforms this code
targets it coincides with `strconv.ParseInt(s, 10, 64)`. -/
def goAtoi (s : String) : Option Int := goParseInt s

/-- Value representation for parsed `float64` progress fields. A finite value
is kept as the exact decimal `mantissa * 10 ^ exp10`; the claims about the
decoder depend only on parse success/failure and on determinism, never on
IEEE rounding, so the exact-decimal representation is faithful for them. -/
inductive GoFloat where
  | finite (mantissa : Int) (exp10 : Int)
  | inf (neg : Bool)
  | nan
deriving DecidableEq, Repr

/-- Splits the character list of a decimal literal into integer digits,
fractional digits and exponent suffix; returns none on any malformed shape. -/
def splitMantissa (cs : List Char) : Option (List Char × List Char × List Char) :=
  let intPart := cs.takeWhile (·.isDigit)
  let afterInt := cs.dropWhile (·.isDigit)
  match afterInt with
  | [] => some (intPart, [], [])
  | '.' :: rest =>
    let fracPart := rest.takeWhile (·.isDigit)
    let afterFrac := rest.dropWhile (·.isDigit)
    some (intPart, fracPart, afterFrac)
  | other => some (intPart, [], other)

/-- Parses an optional exponent suffix (`e`/`E`, optional sign, digits),
returning the signed exponent, or none if the suffix is malformed. -/
def parseExponent (cs : List Char) : Option Int :=
  match cs with
  | [] => some 0
  | e :: rest =>
    if e = 'e' ∨ e = 'E' then
      match rest with
      | [] => none
      | c :: rest2 =>
        let signed : Int × List Char :=
          if c = '+' then (1, rest2) else if c = '-' then (-1, rest2) else (1, c :: rest2)
        match parseDigits signed.2 with
        | none => none
        | some n => some (signed.1 * (n : Int))
    else
      none

/-- Models `strconv.ParseFloat(s, 64)` at the level the decoder claims need:
optional sign; `inf`/`infinity`/`nan` (any case) as special values; otherwise
a decimal literal with optional fractional part and optional exponent, with at
least one digit. Hexadecimal float syntax and float64 overflow/underflow (which
Go reports as ErrRange and the decoder therefore drops) are outside the model;
no claim depends on them. -/
def goParseFloat (s : String) : Option GoFloat :=
  match s.toList with
  | [] => none
  | c :: rest =>
    let signNeg : Bool × List Char :=
      if c = '+' then (false, rest) else if c = '-' then (true, rest) else (false, c :: rest)
    let body := signNeg.2
    let lower := String.mk (body.map Char.toLower)
    if lower = "inf" ∨ lower = "infinity" then some (GoFloat.inf signNeg.1)
    else if lower = "nan" then some GoFloat.nan
    else
      match splitMantissa body with
      | none => none
      | some (intPart, fracPart, expPart) =>
        if intPart = [] ∧ fracPart = [] then none
        else if ¬ (intPart ≠ [] ∨ fracPart ≠ []) then none
        else
          match parseDigits (intPart ++ fracPart), parseExponent expPart with
          | some m, some e =>
            if intPart = [] ∧ fracPart = [] then none
            else
              let mag : Int := (m : Int)
              some (GoFloat.finite (if signNeg.1 then -mag else mag)
                    (e - (fracPart.length : Int)))
          | _, _ => none

/-- Go `%q` applied to the plain binary paths occurring here (no characters
needing escapes): just wraps in double quotes. -/
def goQuote (s : String) : String := "\"" ++ s ++ "\""

/-! ## The progress decoder (progress.go) -/

/-- The decoded progress snapshot (struct FFmpegProgress). Go zero values are
the field defaults; the `Extra` map is modelled as an association list with
in-place update, which is deterministic. `FPS` holds the parsed float64 as a
`GoFloat`. -/
structure FFmpegProgress where
  Frame : Int := 0
  FPS : GoFloat := GoFloat.finite 0 0
  Bitrate : String := ""
  Speed : String := ""
  OutTimeMs : Int := 0
  Done : Bool := false
  Extra : List (String × String) := []
deriving DecidableEq, Repr

/-- Association-list update modelling Go's `p.Extra[k] = v` (deterministic:
replaces the existing binding in place, else appends). -/
def setKV : List (String × String) → String → String → List (String × String)
  | [], k, v => [(k, v)]
  | (k', v') :: rest, k, v =>
    if k' = k then (k, v) :: rest else (k', v') :: setKV rest k v

/-- applyKV (progress.go lines 22-48): fold one key=value pair into the
snapshot. Recognised numeric keys coerce with silent fallback to the previous
value on parse failure; `progress` compares the value against `"end"`; unknown
keys go into `Extra`. -/
def applyKV (p : FFmpegProgress) (k v : String) : FFmpegProgress :=
  if k = "frame" then
    match goAtoi v with
    | some n => { p with Frame := n }
    | none => p
  else if k = "fps" then
    match goParseFloat v with
    | some f => { p with FPS := f }
    | none => p
  else if k = "bitrate" then { p with Bitrate := v }
  else if k = "speed" then { p with Speed := v }
  else if k = "out_time_ms" then
    match goParseInt v with
    | some n => { p with OutTimeMs := n }
    | none => p
  else if k = "progress" then { p with Done := v = "end" }
  else { p with Extra := setKV p.Extra k v }

/-- parseProgressLine (progress.go lines 50-62): trim the line; ignore empty
lines and lines whose first `=` is absent or at position 0; otherwise split at
the first `=` and fold. (Go indexes bytes; since `=` is ASCII, the first `=`
byte is the first `=` character, so character-level splitting is faithful.) -/
def parseProgressLine (line : String) (p : FFmpegProgress) : FFmpegProgress :=
  let t := trimSpace line
  if t = "" then p
  else
    match t.toList.findIdx? (· = '=') with
    | none => p
    | some i =>
      if i = 0 then p
      else applyKV p (String.mk (t.toList.take i)) (String.mk (t.toList.drop (i + 1)))

/-! ## The stream-scanning loop (run.go, scanProgress) -/

/-- scanProgress (run.go lines 115-135) as a fold over the list of lines
scanned from stdout. The sink callback is modelled as a pure predicate: `true`
means its Go counterpart returned a non-nil error (abort requested). Returns
the final value of `*last` together with whether `cancel()` was invoked.
Per the source: each line is parsed and stored into `last`; then the callback
may abort (cancel and return); then a snapshot with `Done` set ends the scan. -/
def scanLines (cb : Option (FFmpegProgress → Bool)) (p : FFmpegProgress) :
    List String → FFmpegProgress × Bool
  | [] => (p, false)
  | line :: rest =>
    let q := parseProgressLine line p
    match cb with
    | some f =>
      if f q then (q, true)
      else if q.Done then (q, false)
      else scanLines (some f) q rest
    | none =>
      if q.Done then (q, false)
      else scanLines none q rest

/-! ## Decoder theorems -/

theorem parseProgressLine_progress_end_done (p : FFmpegProgress) :
    (parseProgressLine "progress=end" p).Done = true := by
  rfl

theorem scanLines_cons (cb : Option (FFmpegProgress → Bool)) (p : FFmpegProgress)
    (line : String) (rest : List String) :
    scanLines cb p (line :: rest) =
      (let q := parseProgressLine line p
       match cb with
       | some f =>
         if f q then (q, true)
         else if q.Done then (q, false)
         else scanLines (some f) q rest
       | none =>
         if q.Done then (q, false)
         else scanLines none q rest) := by
  cases cb <;> rfl

/-- C5 [functional_correctness]: within one decode invocation, a
`progress=end` line sets the snapshot's `Done` field and stops the scan at
that line: the lines after it are never folded in (the scan of
`pre ++ progress=end :: post` equals the scan of `pre ++ [progress=end]`,
for any sink), and the snapshot a sink-less scan returns is marked done. -/
theorem progress_end_stops_scan (cb : Option (FFmpegProgress → Bool))
    (pre post : List String) (p : FFmpegProgress) :
    scanLines cb p (pre ++ "progress=end" :: post) =
      scanLines cb p (pre ++ ["progress=end"]) ∧
    (scanLines none p (pre ++ ["progress=end"])).1.Done = true := by
  induction pre generalizing p cb with
  | nil =>
    constructor
    · cases cb with
      | none =>
        simp [scanLines, parseProgressLine_progress_end_done]
      | some f =>
        simp [scanLines, parseProgressLine_progress_end_done]
    · simp [scanLines, parseProgressLine_progress_end_done]
  | cons l pre ih =>
    constructor
    · cases cb with
      | none =>
        simp only [List.cons_append, scanLines]
        by_cases hd : (parseProgressLine l p).Done
        · simp [hd]
        · simp only [hd, if_neg, Bool.false_eq_true, if_false]
          exact (ih none (parseProgressLine l p)).1
      | some f =>
        simp only [List.cons_append, scanLines]
        by_cases hf : f (parseProgressLine l p)
        · simp [hf]
        · by_cases hd : (parseProgressLine l p).Done
          · simp [hf, hd]
          · simp only [hf, Bool.false_eq_true, if_false, hd]
            exact (ih (some f) (parseProgressLine l p)).1
    · simp only [List.cons_append, scanLines]
      by_cases hd : (parseProgressLine l p).Done
      · simp [hd]
      · simp only [hd, Bool.false_eq_true, if_false]
        exact (ih none (parseProgressLine l p)).2

/-- C6 [functional_correctness]: a recognised numeric key whose value fails
numeric parsing leaves the previously held value unchanged (frame, fps,
out_time_ms); in particular, scanning `frame=120` then `frame=abc` yields a
final snapshot whose frame is 120. -/
theorem malformed_numeric_value_dropped :
    (∀ (p : FFmpegProgress) (v : String), goAtoi v = none →
       (applyKV p "frame" v).Frame = p.Frame) ∧
    (∀ (p : FFmpegProgress) (v : String), goParseFloat v = none →
       (applyKV p "fps" v).FPS = p.FPS) ∧
    (∀ (p : FFmpegProgress) (v : String), goParseInt v = none →
       (applyKV p "out_time_ms" v).OutTimeMs = p.OutTimeMs) ∧
    (scanLines none {} ["frame=120", "frame=abc"]).1.Frame = 120 := by
  refine ⟨?_, ?_, ?_, ?_⟩
  · intro p v h
    simp [applyKV, h]
  · intro p v h
    simp [applyKV, h]
  · intro p v h
    simp [applyKV, h]
  · rfl

theorem malformed_numeric_value_dropped_witness :
    goAtoi "abc" = none ∧
    (applyKV { Frame := 120 } "frame" "abc").Frame = 120 := by
  refine ⟨by rfl, ?_⟩
  exact malformed_numeric_value_dropped.1 { Frame := 120 } "abc" (by rfl)

/-- C7 [security_hyperproperties]: the decode is a deterministic pure fold —
scanning the same line sequence from two fresh decoder states produces
identical final snapshots. In this embedding the decoder is a pure function of
the input lines (the Go code threads no state other than the snapshot and
reads nothing but the line), so the two runs are definitionally equal. -/
theorem decode_deterministic (lines : List String) :
    scanLines none ({} : FFmpegProgress) lines =
      scanLines none ({} : FFmpegProgress) lines := by
  rfl

/-- C10 [functional_correctness]: `applyKV` does not latch `Done` — every
`progress` key overwrites it, so `progress=continue` after `progress=end`
resets it to false; and the scanning loop stops at the first line whose fold
sets `Done`, which is the only reason `Done` stays true at end of run. -/
theorem done_not_latched :
    (∀ p : FFmpegProgress,
       (applyKV (applyKV p "progress" "end") "progress" "continue").Done = false) ∧
    (∀ (p : FFmpegProgress) (v : String),
       (applyKV p "progress" v).Done = decide (v = "end")) ∧
    (∀ (p : FFmpegProgress) (line : String) (rest : List String),
       (parseProgressLine line p).Done = true →
       scanLines none p (line :: rest) = (parseProgressLine line p, false)) := by
  refine ⟨?_, ?_, ?_⟩
  · intro p
    rfl
  · intro p v
    rfl
  · intro p line rest h
    simp [scanLines, h]

theorem done_not_latched_witness :
    (applyKV (applyKV {} "progress" "end") "progress" "continue").Done = false ∧
    scanLines none {} ["progress=end", "frame=5"] =
      (parseProgressLine "progress=end" {}, false) := by
  exact ⟨done_not_latched.1 {},
         done_not_latched.2.2 {} "progress=end" ["frame=5"] (by rfl)⟩

/-! ## Outcome mapping of RunWithProgress (run.go lines 96-112) -/

/-- The error state of the run-scoped context `cctx` when the wait returns:
`ctx.Err()` is nil, `context.Canceled`, or `context.DeadlineExceeded`. -/
inductive CtxErr where
  | noErr
  | canceled
  | deadlineExceeded
deriving DecidableEq, Repr

/-- Classification of a non-nil `execCmd.Wait()` error: an `*exec.ExitError`
(the subprocess ran and exited non-zero or was killed) or any other error. -/
inductive WaitErr where
  | exit (detail : String)
  | otherErr (detail : String)
deriving DecidableEq, Repr

/-- The outcome mapping of RunWithProgress after `Wait` and the drain
goroutines have been joined (run.go lines 96-112): nil wait error is success;
otherwise, a deadline-exceeded context yields the timeout message, an exit
error the failed message, anything else the exec-error message, each carrying
`trimSpace` of the captured stderr buffer. The branch for
`context.Canceled && onProgress != nil && last.Done` in the source is an empty
block (a comment only) and so is a no-op here. `timeoutStr` is the rendering
of the configured timeout duration. -/
def runOutcome (timeoutStr : String) (cctxErr : CtxErr) (waitErr : Option WaitErr)
    (stderrBuf : String) (last : FFmpegProgress) : FFmpegProgress × Option String :=
  match waitErr with
  | none => (last, none)
  | some w =>
    if cctxErr = CtxErr.deadlineExceeded then
      (last, some ("ffmpeg timed out after " ++ timeoutStr ++ "; stderr=" ++
                   trimSpace stderrBuf))
    else
      match w with
      | WaitErr.exit d =>
        (last, some ("ffmpeg failed: " ++ d ++ "; stderr=" ++ trimSpace stderrBuf))
      | WaitErr.otherErr d =>
        (last, some ("ffmpeg exec error: " ++ d ++ "; stderr=" ++ trimSpace stderrBuf))

theorem dropWhile_eq_self_of_forall_false {p : Char → Bool} {l : List Char}
    (h : ∀ c ∈ l, p c = false) : l.dropWhile p = l := by
  cases l with
  | nil => rfl
  | cons a t =>
    have ha : p a = false := h a (List.mem_cons_self a t)
    simp [List.dropWhile, ha]

theorem trimSpace_eq_self_of_no_space {s : String}
    (h : ∀ c ∈ s.toList, isGoSpace c = false) : trimSpace s = s := by
  unfold trimSpace
  have h1 : s.toList.dropWhile isGoSpace = s.toList :=
    dropWhile_eq_self_of_forall_false h
  rw [h1]
  have h2 : s.toList.reverse.dropWhile isGoSpace = s.toList.reverse :=
    dropWhile_eq_self_of_forall_false (fun c hc => h c (List.mem_reverse.mp hc))
  rw [h2, List.reverse_reverse]
  cases s with
  | mk data => rfl

/-- C1 counterexample: the claim asserts some fixed upper bound, independent
of how much the subprocess wrote, on the diagnostic text in a run-failure
message. No such bound exists: `trimSpace` (run.go lines 137-141) only strips
surrounding whitespace, so a failure message grows without bound with the
stderr buffer. -/
theorem run_failure_stderr_bounded_cex :
    ¬ ∃ B : Nat, ∀ (t : String) (ce : CtxErr) (w : WaitErr) (buf : String)
        (last : FFmpegProgress) (msg : String),
        (runOutcome t ce (some w) buf last).2 = some msg → msg.length ≤ B := by
  rintro ⟨B, hB⟩
  have hnospace : ∀ c ∈ (String.mk (List.replicate (B + 1) 'a')).toList,
      isGoSpace c = false := by
    intro c hc
    have : c = 'a' := (List.eq_of_mem_replicate hc)
    rw [this]
    rfl
  have htrim : trimSpace (String.mk (List.replicate (B + 1) 'a')) =
      String.mk (List.replicate (B + 1) 'a') :=
    trimSpace_eq_self_of_no_space hnospace
  have heq : (runOutcome "" CtxErr.noErr (some (WaitErr.exit ""))
      (String.mk (List.replicate (B + 1) 'a')) {}).2 =
      some ("ffmpeg failed: " ++ "" ++ "; stderr=" ++
            trimSpace (String.mk (List.replicate (B + 1) 'a'))) := rfl
  have hlen := hB "" CtxErr.noErr (WaitErr.exit "")
    (String.mk (List.replicate (B + 1) 'a')) {} _ heq
  rw [htrim] at hlen
  have hexp : ("ffmpeg failed: " ++ "" ++ "; stderr=" ++
      String.mk (List.replicate (B + 1) 'a')).length = 24 + (B + 1) := by
    simp [String.length_append]
    rfl
  omega

/-- C1 amended [functional_correctness]: a run failure (timeout, non-zero
exit, or other wait error) always carries the diagnostic text captured from
stderr, whitespace-trimmed but otherwise verbatim — no bounded-size
truncation is applied (on whitespace-free diagnostics, `trimSpace` is the
identity, whatever their length). -/
theorem run_failure_carries_stderr (t d buf : String) (last : FFmpegProgress) :
    ((runOutcome t CtxErr.deadlineExceeded (some (WaitErr.exit d)) buf last).2 =
       some ("ffmpeg timed out after " ++ t ++ "; stderr=" ++ trimSpace buf)) ∧
    (∀ ce : CtxErr, ce ≠ CtxErr.deadlineExceeded →
       (runOutcome t ce (some (WaitErr.exit d)) buf last).2 =
         some ("ffmpeg failed: " ++ d ++ "; stderr=" ++ trimSpace buf) ∧
       (runOutcome t ce (some (WaitErr.otherErr d)) buf last).2 =
         some ("ffmpeg exec error: " ++ d ++ "; stderr=" ++ trimSpace buf)) ∧
    (∀ s : String, (∀ c ∈ s.toList, isGoSpace c = false) → trimSpace s = s) := by
  refine ⟨rfl, ?_, fun s hs => trimSpace_eq_self_of_no_space hs⟩
  intro ce hce
  constructor
  · simp [runOutcome, hce]
  · simp [runOutcome, hce]

theorem run_failure_carries_stderr_witness :
    ((runOutcome "5s" CtxErr.canceled (some (WaitErr.exit "exit status 1"))
        "  diag  " ({} : FFmpegProgress)).2 =
       some ("ffmpeg failed: " ++ "exit status 1" ++ "; stderr=" ++
             trimSpace "  diag  ")) ∧
    trimSpace "diag" = "diag" := by
  refine ⟨((run_failure_carries_stderr "5s" "exit status 1" "  diag  " {}).2.1
            CtxErr.canceled (by decide)).1, ?_⟩
  exact (run_failure_carries_stderr "" "" "" {}).2.2 "diag" (by decide)

/-- C2 counterexample: a sink-requested abort cancels the run-scoped context,
so at wait time the context error is `Canceled`, not `DeadlineExceeded`; the
outcome mapping then reports the exit-error classification, which differs
from the timeout classification the claim requires. -/
theorem abort_not_reported_as_timeout_cex :
    (runOutcome "30s" CtxErr.canceled (some (WaitErr.exit "signal: killed"))
       "boom" ({} : FFmpegProgress)).2 =
      some "ffmpeg failed: signal: killed; stderr=boom" ∧
    (runOutcome "30s" CtxErr.deadlineExceeded (some (WaitErr.exit "signal: killed"))
       "boom" ({} : FFmpegProgress)).2 =
      some "ffmpeg timed out after 30s; stderr=boom" ∧
    ("ffmpeg failed: signal: killed; stderr=boom" : String) ≠
      "ffmpeg timed out after 30s; stderr=boom" := by
  refine ⟨rfl, rfl, by decide⟩

/-- C2 amended [error_handling]: when the sink returns a non-nil error, the
scan loop invokes `cancel()` and stops at that line; the run's outcome is then
classified by the wait result — `ffmpeg failed` for an exit error, `ffmpeg
exec error` otherwise — not with the timeout classification, which is reserved
for an actually expired deadline. -/
theorem abort_cancels_and_reports_wait_error :
    (∀ (f : FFmpegProgress → Bool) (line : String) (rest : List String)
       (p : FFmpegProgress),
       f (parseProgressLine line p) = true →
       scanLines (some f) p (line :: rest) = (parseProgressLine line p, true)) ∧
    (∀ (t d buf : String) (last : FFmpegProgress),
       (runOutcome t CtxErr.canceled (some (WaitErr.exit d)) buf last).2 =
         some ("ffmpeg failed: " ++ d ++ "; stderr=" ++ trimSpace buf) ∧
       (runOutcome t CtxErr.canceled (some (WaitErr.otherErr d)) buf last).2 =
         some ("ffmpeg exec error: " ++ d ++ "; stderr=" ++ trimSpace buf)) := by
  constructor
  · intro f line rest p h
    simp [scanLines, h]
  · intro t d buf last
    exact ⟨rfl, rfl⟩

theorem abort_cancels_and_reports_wait_error_witness :
    scanLines (some (fun _ => true)) ({} : FFmpegProgress) ["frame=1", "frame=2"] =
      (parseProgressLine "frame=1" {}, true) ∧
    (runOutcome "30s" CtxErr.canceled (some (WaitErr.exit "exit status 1")) "x"
       ({} : FFmpegProgress)).2 =
      some ("ffmpeg failed: " ++ "exit status 1" ++ "; stderr=" ++ trimSpace "x") :=
  ⟨abort_cancels_and_reports_wait_error.1 (fun _ => true) "frame=1" ["frame=2"] {} rfl,
   (abort_cancels_and_reports_wait_error.2 "30s" "exit status 1" "x" {}).1⟩

/-! ## Readiness check (FFmpegTool.ensureReady, tool.go lines 95-156, and the
structurally identical ffprobe Tool.ensureReady, media.go lines 79-145).
The two tools differ only in the strings used in messages and in the path
field consulted, so the model is parametrised by a `ToolCfg`; the external
world (path search, probe subprocess) is a `CheckEnv`. -/

/-- Per-tool strings: the binary name used in messages, the name of the
configuration field quoted in the not-found message, and the default search
name used when the field is empty. -/
structure ToolCfg where
  name : String
  pathField : String
  defaultPath : String
deriving DecidableEq, Repr

/-- The mutex-guarded record of a tool instance (FFmpegTool / Tool): the
configured path field plus `{checked, resolvedPath, version, checkErr}`.
The timeout field is abstracted into the probe result. -/
structure ToolState where
  cfgPath : String := ""
  checked : Bool := false
  resolvedPath : String := ""
  version : String := ""
  checkErr : Option String := none
deriving DecidableEq, Repr

/-- Result of running the resolved binary with the trivial `-version` flag
under the capped deadline: normal exit with stdout, failure with error text
and stderr, or deadline expiry. -/
inductive ProbeResult where
  | ok (stdout : String)
  | failed (errText : String) (stderrText : String)
  | timedOut
deriving DecidableEq, Repr

/-- The environment a readiness check consults: `exec.LookPath` (error text or
resolved absolute path) and the `-version` probe. -/
structure CheckEnv where
  lookPath : String → Except String String
  probe : String → ProbeResult

/-- Helper for `goFields`: accumulates the current field in reverse. -/
def goFieldsAux : List Char → List Char → List String
  | [], cur => if cur.isEmpty then [] else [String.mk cur.reverse]
  | c :: rest, cur =>
    if isGoSpace c then
      if cur.isEmpty then goFieldsAux rest []
      else String.mk cur.reverse :: goFieldsAux rest []
    else goFieldsAux rest (c :: cur)

/-- Models `strings.Fields`: split around runs of whitespace. -/
def goFields (s : String) : List String := goFieldsAux s.toList []

/-- The scan loop of parseFFmpegVersion (tool.go lines 174-178): walk adjacent
token pairs, returning the token after the first case-insensitive `version`. -/
def findVersionTok : List String → Option String
  | a :: b :: rest => if a.toLower = "version" then some b else findVersionTok (b :: rest)
  | _ => none

/-- parseFFmpegVersion (tool.go lines 167-180; parseFFProbeVersion is
identical): first line of the banner, trimmed, split into fields; the token
following a case-insensitive `version` marker, else the empty string. -/
def parseFFmpegVersion (s : String) : String :=
  match s.splitOn "\n" with
  | [] => ""
  | first :: _ => (findVersionTok (goFields (trimSpace first))).getD ""

/-- Outcome of the expensive, lock-free section of ensureReady (path
resolution plus the probe), carrying exactly what the write-back section
stores for that branch. -/
inductive CheckResult where
  | notFound (msg : String)
  | probeFailed (resolved : String) (msg : String)
  | ok (resolved : String) (version : String)
deriving DecidableEq, Repr

/-- The expensive check (tool.go lines 104-147, run without the lock):
resolve the path (empty field falls back to the default), then probe with
`-version`; messages as in the source, including the distinct not-found /
cannot-run / timed-out texts and the `unknown` version fallback. -/
def resolveAndProbe (cfg : ToolCfg) (env : CheckEnv) (cfgPath : String) : CheckResult :=
  let path := if cfgPath = "" then cfg.defaultPath else cfgPath
  match env.lookPath path with
  | Except.error e =>
    CheckResult.notFound (cfg.name ++ " not found (" ++ cfg.pathField ++ "=" ++
      goQuote path ++ "): " ++ e)
  | Except.ok resolved =>
    match env.probe resolved with
    | ProbeResult.timedOut =>
      CheckResult.probeFailed resolved
        (cfg.name ++ " check timed out (path=" ++ goQuote resolved ++ ")")
    | ProbeResult.failed errText stderrText =>
      CheckResult.probeFailed resolved
        (cfg.name ++ " exists but cannot run (path=" ++ goQuote resolved ++ "): " ++
         errText ++ "; stderr=" ++ trimSpace stderrText)
    | ProbeResult.ok stdout =>
      let v := parseFFmpegVersion stdout
      CheckResult.ok resolved (if v = "" then "unknown" else v)

/-- The locked write-back section of ensureReady: per branch, what the source
stores under the mutex (the not-found branch leaves resolvedPath empty). -/
def commit (t : ToolState) : CheckResult → ToolState
  | CheckResult.notFound msg => { t with checked := true, checkErr := some msg }
  | CheckResult.probeFailed resolved msg =>
    { t with checked := true, resolvedPath := resolved, checkErr := some msg }
  | CheckResult.ok resolved ver =>
    { t with checked := true, resolvedPath := resolved, version := ver,
             checkErr := none }

/-- The error value ensureReady returns for each check outcome. -/
def resultErr : CheckResult → Option String
  | CheckResult.notFound msg => some msg
  | CheckResult.probeFailed _ msg => some msg
  | CheckResult.ok _ _ => none

/-- ensureReady as a sequential state transformer: fast path returns the
cached error without touching the environment; otherwise the expensive check
runs and its outcome is committed. The third component records whether the
expensive section (path resolution + probe) executed. -/
def ensureReady (cfg : ToolCfg) (env : CheckEnv) (t : ToolState) :
    ToolState × Option String × Bool :=
  if t.checked then (t, t.checkErr, false)
  else
    let r := resolveAndProbe cfg env t.cfgPath
    (commit t r, resultErr r, true)

/-- Version (tool.go lines 158-165): ensureReady first, failing fast with its
error, else the cached version string. -/
def Version (cfg : ToolCfg) (env : CheckEnv) (t : ToolState) :
    ToolState × Except String String :=
  let res := ensureReady cfg env t
  match res.2.1 with
  | some e => (res.1, Except.error e)
  | none => (res.1, Except.ok res.1.version)

theorem commit_checked (t : ToolState) (r : CheckResult) : (commit t r).checked = true := by
  cases r <;> rfl

theorem commit_checkErr (t : ToolState) (r : CheckResult) :
    (commit t r).checkErr = resultErr r := by
  cases r <;> rfl

/-- C4 [error_handling]: once ensureReady has completed with an error, every
subsequent ensureReady call on the resulting state — under any environment,
hence without re-resolving the path or re-invoking the binary (the expensive
flag is false) — returns the identical cached error, and Version fails fast
with that same error. -/
theorem cached_error_replayed (cfg : ToolCfg) (env env2 : CheckEnv)
    (t : ToolState) (e : String)
    (h : (ensureReady cfg env t).2.1 = some e) :
    ensureReady cfg env2 (ensureReady cfg env t).1 =
      ((ensureReady cfg env t).1, some e, false) ∧
    (Version cfg env2 (ensureReady cfg env t).1).2 = Except.error e := by
  have hkey : (ensureReady cfg env t).1.checked = true ∧
      (ensureReady cfg env t).1.checkErr = some e := by
    by_cases hc : t.checked = true
    · unfold ensureReady at h ⊢
      rw [if_pos hc] at h ⊢
      exact ⟨hc, h⟩
    · unfold ensureReady at h ⊢
      rw [if_neg hc] at h ⊢
      exact ⟨commit_checked t _, by rw [commit_checkErr]; exact h⟩
  have main : ∀ t1 : ToolState, t1.checked = true → t1.checkErr = some e →
      ensureReady cfg env2 t1 = (t1, some e, false) ∧
      (Version cfg env2 t1).2 = Except.error e := by
    intro t1 h1 h2
    constructor
    · unfold ensureReady
      rw [if_pos h1, h2]
    · unfold Version ensureReady
      rw [if_pos h1, h2]
  exact main _ hkey.1 hkey.2

def ffmpegCfg : ToolCfg :=
  { name := "ffmpeg", pathField := "FFmpegPath", defaultPath := "ffmpeg" }

def ffprobeCfg : ToolCfg :=
  { name := "ffprobe", pathField := "FFProbePath", defaultPath := "ffprobe" }

/-- An environment in which the binary is absent from the search path. -/
def envMissing : CheckEnv :=
  { lookPath := fun _ => Except.error "executable file not found in $PATH",
    probe := fun _ => ProbeResult.timedOut }

/-- An environment in which the binary resolves and probes cleanly. -/
def envHealthy : CheckEnv :=
  { lookPath := fun _ => Except.ok "/usr/bin/ffmpeg",
    probe := fun _ => ProbeResult.ok "ffmpeg version 6.0 Copyright" }

theorem cached_error_replayed_witness :
    ensureReady ffmpegCfg envHealthy (ensureReady ffmpegCfg envMissing {}).1 =
      ((ensureReady ffmpegCfg envMissing {}).1,
       some "ffmpeg not found (FFmpegPath=\"ffmpeg\"): executable file not found in $PATH",
       false) :=
  (cached_error_replayed ffmpegCfg envMissing envHealthy {} _ rfl).1

/-! ## Two-thread interleaving model of ensureReady.
The mutex delimits three atomic sections: the fast-path test (lock, read
`checked`, unlock — lines 96-102), the expensive check run without the lock
(lines 104-147), and the locked write-back (lines 111-114 / 136-140 /
149-154). Each thread isa program counter over these sections; a scheduler
trace picks which thread steps next. -/

/-- Program counter of one thread inside ensureReady. -/
inductive PC where
  | entry
  | check
  | write (r : CheckResult)
  | finished (res : Option String)
deriving DecidableEq, Repr

/-- Two threads sharing one tool instance. -/
structure Sys2 where
  shared : ToolState
  pcA : PC
  pcB : PC
deriving DecidableEq, Repr

/-- One atomic step of a thread: the fast-path test, the expensive check
(flagged in the third component), the write-back, or stutter when finished. -/
def stepThread (cfg : ToolCfg) (env : CheckEnv) (st : ToolState) :
    PC → ToolState × PC × Bool
  | PC.entry =>
    if st.checked then (st, PC.finished st.checkErr, false)
    else (st, PC.check, false)
  | PC.check => (st, PC.write (resolveAndProbe cfg env st.cfgPath), true)
  | PC.write r => (commit st r, PC.finished (resultErr r), false)
  | PC.finished res => (st, PC.finished res, false)

/-- Scheduler step: `false` steps thread A, `true` steps thread B; returns
whether the stepped section was the expensive check. -/
def stepSys (cfg : ToolCfg) (env : CheckEnv) (s : Sys2) (i : Bool) : Sys2 × Bool :=
  if i then
    let r := stepThread cfg env s.shared s.pcB
    ({ s with shared := r.1, pcB := r.2.1 }, r.2.2)
  else
    let r := stepThread cfg env s.shared s.pcA
    ({ s with shared := r.1, pcA := r.2.1 }, r.2.2)

/-- Runs a scheduler trace, counting how many times the expensive check
section executed. -/
def runTrace (cfg : ToolCfg) (env : CheckEnv) : Sys2 → List Bool → Sys2 × Nat
  | s, [] => (s, 0)
  | s, i :: rest =>
    let r := stepSys cfg env s i
    let rec' := runTrace cfg env r.1 rest
    (rec'.1, (if r.2 then 1 else 0) + rec'.2)

/-- A fresh tool instance with both threads about to enter ensureReady. -/
def initSys : Sys2 := { shared := {}, pcA := PC.entry, pcB := PC.entry }

/-- C3 [concurrency]: the failing interleaving. The fast-path test and the
expensive check are separate atomic sections (the lock is released between
them), so two concurrent first-time callers can both observe `checked = false`
and both run the expensive check: under the alternating schedule A,B,A,B,A,B
on a fresh healthy tool the check executes twice, contradicting the claimed
at-most-once bound (and ensureReady's own doc comment in media.go). Both
callers do finish with the same nil outcome. -/
theorem ensureReady_race_check_runs_twice :
    (runTrace ffmpegCfg envHealthy initSys [false, true, false, true, false, true]).2
      = 2 ∧
    (runTrace ffmpegCfg envHealthy initSys [false, true, false, true, false, true]).1.pcA
      = PC.finished none ∧
    (runTrace ffmpegCfg envHealthy initSys [false, true, false, true, false, true]).1.pcB
      = PC.finished none :=
  ⟨rfl, rfl, rfl⟩


/-! ## The argument builder (FFmpegCommand, command.go) under Go slice
semantics. A Go slice is a view (backing-array id, length) into a heap of
backing arrays; `append` writes in place while spare capacity remains and
reallocates otherwise, and `Args()` copies the view into a freshly allocated
array. This level is needed for the launch-time-snapshot claim, which is a
statement about aliasing. -/

/-- The heap of backing arrays: index = array id; the stored list's length is
the array's capacity (unwritten cells hold Go's zero value `""`). -/
abbrev Heap := List (List String)

/-- A Go slice header: backing-array id and length. -/
structure GoSlice where
  arr : Nat
  len : Nat
deriving DecidableEq, Repr

/-- The elements a slice denotes. -/
def readSlice (h : Heap) (s : GoSlice) : List String :=
  ((h.get? s.arr).getD []).take s.len

/-- The slice's capacity: the backing array's length. -/
def capOf (h : Heap) (s : GoSlice) : Nat := ((h.get? s.arr).getD []).length

/-- Models Go `append(s, xs...)`: within capacity the elements are written
into the shared backing array in place; otherwise a fresh array is allocated
(Go's exact growth policy is version-dependent; the model takes
`max (2*cap) needed`, on which no theorem depends). -/
def goAppend (h : Heap) (s : GoSlice) (xs : List String) : Heap × GoSlice :=
  if s.len + xs.length ≤ capOf h s then
    (h.set s.arr ((((h.get? s.arr).getD []).take s.len ++ xs) ++
                  ((h.get? s.arr).getD []).drop (s.len + xs.length)),
     ⟨s.arr, s.len + xs.length⟩)
  else
    (h ++ [(readSlice h s ++ xs) ++
           List.replicate (max (2 * capOf h s) (s.len + xs.length) -
                           (readSlice h s ++ xs).length) ""],
     ⟨h.length, s.len + xs.length⟩)

/-- NewFFmpegCommand (command.go lines 12-15): a fresh builder whose args
slice is a newly allocated one-element array holding `-y`. -/
def newFFmpegCommand (h : Heap) : Heap × GoSlice :=
  (h ++ [["-y"]], ⟨h.length, 1⟩)

/-- Args (command.go lines 17-21): `out := make([]string, len(c.args));
copy(out, c.args); return out` — a fresh array receiving a copy of the view
(`make` zero-fills, `copy` copies at most the view). -/
def argsSnapshot (h : Heap) (c : GoSlice) : Heap × GoSlice :=
  (h ++ [readSlice h c ++ List.replicate (c.len - (readSlice h c).length) ""],
   ⟨h.length, c.len⟩)

/-- Overwrite(false) (command.go lines 41-56): `n := make([]string, 0,
len(c.args))`, then every non-`-y` token of the view is appended to `n` — each
such append stays within n's capacity `len(c.args)`, so the loop is a block of
in-place writes into the fresh array, folded here into one write — then
`c.args = n` and `AppendArgs("-n")`. -/
def overwriteOff (h : Heap) (c : GoSlice) : Heap × GoSlice :=
  goAppend
    (h ++ [(readSlice h c).filter (fun x => x ≠ "-y") ++
           List.replicate (c.len - ((readSlice h c).filter (fun x => x ≠ "-y")).length) ""])
    ⟨h.length, ((readSlice h c).filter (fun x => x ≠ "-y")).length⟩ ["-n"]

/-- The builder mutations. Every fluent mutator of FFmpegCommand other than
Overwrite delegates to AppendArgs with computed tokens (HideBanner, LogLevel,
Input, Output, VideoCodec, AudioCodec, CopyVideo, CopyAudio, CRF, Preset,
Tune, MovFlagsFastStart, Map, Scale, FPS, StartAt), so the two constructors
cover them all; named forms follow. -/
inductive Mutator where
  | appendArgs (xs : List String)
  | overwrite (flag : Bool)
deriving Repr

/-- strconv.Itoa (via the itoa helper, tool.go line 189). -/
def itoa (i : Int) : String := toString i

def hideBanner : Mutator := Mutator.appendArgs ["-hide_banner"]
def logLevel (level : String) : Mutator := Mutator.appendArgs ["-v", level]
def inputArg (path : String) : Mutator := Mutator.appendArgs ["-i", path]
def outputArg (path : String) : Mutator := Mutator.appendArgs [path]
def videoCodec (codec : String) : Mutator := Mutator.appendArgs ["-c:v", codec]
def audioCodec (codec : String) : Mutator := Mutator.appendArgs ["-c:a", codec]
def copyVideo : Mutator := videoCodec "copy"
def copyAudio : Mutator := audioCodec "copy"
def crf (v : Int) : Mutator := Mutator.appendArgs ["-crf", itoa v]
def presetArg (p : String) : Mutator := Mutator.appendArgs ["-preset", p]
def tuneArg (t : String) : Mutator := Mutator.appendArgs ["-tune", t]
def movFlagsFastStart : Mutator := Mutator.appendArgs ["-movflags", "+faststart"]
def mapStream (spec : String) : Mutator := Mutator.appendArgs ["-map", spec]
def scaleArg (w hgt : Int) : Mutator :=
  Mutator.appendArgs ["-vf", "scale=" ++ itoa w ++ ":" ++ itoa hgt]
def fpsArg (fps : String) : Mutator := Mutator.appendArgs ["-r", fps]

/-- One builder mutation applied to the builder's slice (Overwrite(true)
returns the builder unchanged, command.go lines 43-45). -/
def applyMutator (h : Heap) (c : GoSlice) : Mutator → Heap × GoSlice
  | Mutator.appendArgs xs => goAppend h c xs
  | Mutator.overwrite true => (h, c)
  | Mutator.overwrite false => overwriteOff h c

/-- A sequence of builder mutations threaded through heap and builder slice. -/
def applyMutators (h : Heap) (c : GoSlice) : List Mutator → Heap × GoSlice
  | [] => (h, c)
  | m :: ms => applyMutators (applyMutator h c m).1 (applyMutator h c m).2 ms

theorem goAppend_frame (a : Nat) (h : Heap) (s : GoSlice) (xs : List String)
    (ha : a < h.length) (hs : s.arr ≠ a) :
    (goAppend h s xs).1.get? a = h.get? a ∧
    a < (goAppend h s xs).1.length ∧
    (goAppend h s xs).2.arr ≠ a := by
  unfold goAppend
  by_cases hcap : s.len + xs.length ≤ capOf h s
  · rw [if_pos hcap]
    exact ⟨List.get?_set_ne _ _ hs, by simpa using ha, hs⟩
  · rw [if_neg hcap]
    refine ⟨List.get?_append ha, ?_, Nat.ne_of_gt ha⟩
    simp only [List.length_append, List.length_cons, List.length_nil]
    omega

theorem overwriteOff_frame (a : Nat) (h : Heap) (c : GoSlice)
    (ha : a < h.length) :
    (overwriteOff h c).1.get? a = h.get? a ∧
    a < (overwriteOff h c).1.length ∧
    (overwriteOff h c).2.arr ≠ a := by
  unfold overwriteOff
  have ha1 : a < (h ++ [(readSlice h c).filter (fun x => x ≠ "-y") ++
      List.replicate (c.len - ((readSlice h c).filter (fun x => x ≠ "-y")).length) ""]).length := by
    simp only [List.length_append, List.length_cons, List.length_nil]
    omega
  have hg := goAppend_frame a
    (h ++ [(readSlice h c).filter (fun x => x ≠ "-y") ++
           List.replicate (c.len - ((readSlice h c).filter (fun x => x ≠ "-y")).length) ""])
    ⟨h.length, ((readSlice h c).filter (fun x => x ≠ "-y")).length⟩ ["-n"]
    ha1 (Nat.ne_of_gt ha)
  exact ⟨hg.1.trans (List.get?_append ha), hg.2.1, hg.2.2⟩

theorem applyMutator_frame (a : Nat) (h : Heap) (c : GoSlice) (m : Mutator)
    (ha : a < h.length) (hc : c.arr ≠ a) :
    (applyMutator h c m).1.get? a = h.get? a ∧
    a < (applyMutator h c m).1.length ∧
    (applyMutator h c m).2.arr ≠ a := by
  cases m with
  | appendArgs xs => exact goAppend_frame a h c xs ha hc
  | overwrite flag =>
    cases flag with
    | true => exact ⟨rfl, ha, hc⟩
    | false => exact overwriteOff_frame a h c ha

theorem applyMutators_frame (a : Nat) (ms : List Mutator) (h : Heap) (c : GoSlice)
    (ha : a < h.length) (hc : c.arr ≠ a) :
    (applyMutators h c ms).1.get? a = h.get? a := by
  induction ms generalizing h c with
  | nil => rfl
  | cons m ms ih =>
    obtain ⟨h1, h2, h3⟩ := applyMutator_frame a h c m ha hc
    calc (applyMutators h c (m :: ms)).1.get? a
        = (applyMutators (applyMutator h c m).1 (applyMutator h c m).2 ms).1.get? a := rfl
      _ = (applyMutator h c m).1.get? a := ih _ _ h2 h3
      _ = h.get? a := h1

/-- C8 [frame_effect]: the argument vector materialised by Args() is an
independent snapshot. Args copies the builder's view into a fresh backing
array; every later builder mutation (AppendArgs, Overwrite, or any fluent
mutator — all reduce to these two) writes only into the builder's current or
freshly allocated arrays, never into the snapshot's, so the snapshot's
denotation is unchanged and an in-flight run launched from it is
unaffected. -/
theorem args_snapshot_immutable (h : Heap) (c : GoSlice) (ms : List Mutator)
    (hwf : c.arr < h.length) :
    readSlice (applyMutators (argsSnapshot h c).1 c ms).1 (argsSnapshot h c).2 =
      readSlice (argsSnapshot h c).1 (argsSnapshot h c).2 := by
  have key : (applyMutators (argsSnapshot h c).1 c ms).1.get? h.length =
      (argsSnapshot h c).1.get? h.length := by
    apply applyMutators_frame
    · show h.length < (argsSnapshot h c).1.length
      unfold argsSnapshot
      simp only [List.length_append, List.length_cons, List.length_nil]
      omega
    · exact Nat.ne_of_lt hwf
  show (((applyMutators (argsSnapshot h c).1 c ms).1.get? h.length).getD []).take c.len =
    (((argsSnapshot h c).1.get? h.length).getD []).take c.len
  rw [key]

theorem args_snapshot_immutable_witness :
    readSlice (applyMutators (argsSnapshot [["-y"]] ⟨0, 1⟩).1 ⟨0, 1⟩
        [inputArg "in.mp4", Mutator.overwrite false,
         Mutator.appendArgs ["out.mp4"]]).1
        (argsSnapshot [["-y"]] ⟨0, 1⟩).2 =
      readSlice (argsSnapshot [["-y"]] ⟨0, 1⟩).1 (argsSnapshot [["-y"]] ⟨0, 1⟩).2 :=
  args_snapshot_immutable [["-y"]] ⟨0, 1⟩ _ (by decide)

theorem readSlice_goAppend (h : Heap) (s : GoSlice) (xs : List String)
    (harr : s.arr < h.length) (hlen : s.len ≤ capOf h s) :
    readSlice (goAppend h s xs).1 (goAppend h s xs).2 = readSlice h s ++ xs := by
  have hlentake : (((h.get? s.arr).getD []).take s.len).length = s.len := by
    rw [List.length_take]
    exact Nat.min_eq_left hlen
  have hlenview : (readSlice h s).length = s.len := hlentake
  unfold goAppend
  by_cases hcap : s.len + xs.length ≤ capOf h s
  · rw [if_pos hcap]
    show (((h.set s.arr _).get? s.arr).getD []).take (s.len + xs.length) =
      ((h.get? s.arr).getD []).take s.len ++ xs
    rw [List.get?_set_eq_of_lt _ harr]
    exact List.take_left' (by rw [List.length_append, hlentake])
  · rw [if_neg hcap]
    show (((h ++ [_]).get? h.length).getD []).take (s.len + xs.length) =
      ((h.get? s.arr).getD []).take s.len ++ xs
    rw [List.get?_concat_length]
    exact List.take_left' (by rw [List.length_append, hlenview])

theorem readSlice_overwriteOff (h : Heap) (c : GoSlice) :
    readSlice (overwriteOff h c).1 (overwriteOff h c).2 =
      (readSlice h c).filter (fun x => x ≠ "-y") ++ ["-n"] := by
  have hfl : ((readSlice h c).filter (fun x => x ≠ "-y")).length ≤ c.len := by
    refine le_trans (List.length_filter_le _ _) ?_
    unfold readSlice
    rw [List.length_take]
    exact min_le_left _ _
  unfold overwriteOff
  have hget : ((h ++ [(readSlice h c).filter (fun x => x ≠ "-y") ++
      List.replicate (c.len - ((readSlice h c).filter (fun x => x ≠ "-y")).length) ""]).get?
        h.length).getD [] =
      (readSlice h c).filter (fun x => x ≠ "-y") ++
        List.replicate (c.len - ((readSlice h c).filter (fun x => x ≠ "-y")).length) "" := by
    rw [List.get?_concat_length]
    rfl
  have harr : h.length < (h ++ [(readSlice h c).filter (fun x => x ≠ "-y") ++
      List.replicate (c.len - ((readSlice h c).filter (fun x => x ≠ "-y")).length) ""]).length := by
    simp only [List.length_append, List.length_cons, List.length_nil]
    omega
  have hcap : ((readSlice h c).filter (fun x => x ≠ "-y")).length ≤
      capOf (h ++ [(readSlice h c).filter (fun x => x ≠ "-y") ++
        List.replicate (c.len - ((readSlice h c).filter (fun x => x ≠ "-y")).length) ""])
        ⟨h.length, ((readSlice h c).filter (fun x => x ≠ "-y")).length⟩ := by
    unfold capOf
    rw [hget]
    simp only [List.length_append, List.length_replicate]
    omega
  rw [readSlice_goAppend _ _ _ harr hcap]
  congr 1
  show ((((h ++ [(readSlice h c).filter (fun x => x ≠ "-y") ++
      List.replicate (c.len - ((readSlice h c).filter (fun x => x ≠ "-y")).length) ""]).get?
        h.length).getD []).take ((readSlice h c).filter (fun x => x ≠ "-y")).length) =
    (readSlice h c).filter (fun x => x ≠ "-y")
  rw [hget]
  exact List.take_left' rfl

/-- C9 [functional_correctness]: a fresh command's argument list is exactly
`["-y"]` (so it begins with `-y`, overwrite on by default); Overwrite(true)
is the identity on heap and builder; Overwrite(false) yields an argument list
equal to the previous one with every `-y` token removed and `-n` appended at
the end. -/
theorem overwrite_semantics :
    (∀ h : Heap, readSlice (newFFmpegCommand h).1 (newFFmpegCommand h).2 = ["-y"]) ∧
    (∀ (h : Heap) (c : GoSlice), applyMutator h c (Mutator.overwrite true) = (h, c)) ∧
    (∀ (h : Heap) (c : GoSlice),
       readSlice (overwriteOff h c).1 (overwriteOff h c).2 =
         (readSlice h c).filter (fun x => x ≠ "-y") ++ ["-n"]) := by
  refine ⟨?_, fun h c => rfl, fun h c => readSlice_overwriteOff h c⟩
  intro h
  show (((h ++ [["-y"]]).get? h.length).getD []).take 1 = ["-y"]
  rw [List.get?_concat_length]
  rfl

end LingConvert
